import Mathlib


/-!
Verification development for the truchain repository.

The definitions below are a shallow embedding of the matching and verdict
engine of the repository:

* `calculate_similarity`, `find_matches` — `verification.py` (`VideoVerifier`);
* `ratioOf`, `find_best_match`, `search_all_videos` — `sliding_window_matcher.py`
  (`SlidingWindowMatcher`) and Python's `difflib.SequenceMatcher.ratio`;
* `verify_speaker` — `ai-layer/speaker_verification.py`;
* `verify_clip` — the decision logic of the `/verify` endpoint in
  `ai-layer/api_server.py`;
* `spliceAnalysis` — the max-gap analysis of
  `legacy_chromaprint/run_frankenstein_tests.py`.

Machine reals (Python floats) are modelled as rationals; Python exceptions are
modelled with `Option`/`Except`.
-/

set_option maxHeartbeats 1000000

unseal Rat.add Rat.sub Rat.mul Rat.inv


deriving instance DecidableEq for Except

/-! ## Python list / string primitives -/

/-- Python indexing `l[i]` for an `int` index: negative indices count from the
end; an index out of range is an `IndexError`, modelled as `none`. -/
def pyGet {α : Type} (l : List α) (i : Int) : Option α :=
  if 0 ≤ i then l.get? i.toNat
  else if 0 ≤ i + l.length then l.get? (i + l.length).toNat
  else none

/-- Clamp one endpoint of a Python slice to `[0, len]`. -/
def sliceIndex (len : Nat) (i : Int) : Nat :=
  if i < 0 then (i + len).toNat else min i.toNat len

/-- Python slicing `l[a:b]` (no step), with negative-index wrapping. -/
def pySlice {α : Type} (l : List α) (a b : Int) : List α :=
  (l.take (sliceIndex l.length b)).drop (sliceIndex l.length a)

/-- Accumulator pass of Python `str.split()`: split at blanks, never emit
empty words; `cur` holds the characters of the current word, reversed. -/
def pySplitGo : List Char → List Char → List String
  | [], cur => if cur = [] then [] else [String.mk cur.reverse]
  | c :: cs, cur =>
    if c = ' ' then
      if cur = [] then pySplitGo cs [] else String.mk cur.reverse :: pySplitGo cs []
    else pySplitGo cs (c :: cur)

/-- Python `str.split()` on the blank-separated normalized text (empty
fragments dropped). -/
def pySplit (s : String) : List String :=
  pySplitGo s.data []

/-- Python `' '.join(ws)`. -/
def joinWords (ws : List String) : String :=
  String.intercalate " " ws

/-! ## difflib.SequenceMatcher (no junk, short strings: autojunk inactive)

`ratioOf` embeds `SequenceMatcher(None, a, b).ratio()`: total size of the
recursively found matching blocks, scaled by the combined length. -/

/-- Length of the longest common prefix of two character lists. -/
def commonPrefixLen : List Char → List Char → Nat
  | a :: as, b :: bs => if a = b then commonPrefixLen as bs + 1 else 0
  | _, _ => 0

/-- One candidate anchor `(i, j)` for the longest matching block: keep the
candidate only when strictly longer than the best so far (difflib returns the
maximal block that starts earliest in `a`, then earliest in `b`). -/
def lmStep (a b : List Char) (acc : Nat × Nat × Nat) (i j : Nat) : Nat × Nat × Nat :=
  let k := commonPrefixLen (a.drop i) (b.drop j)
  if acc.2.2 < k then (i, j, k) else acc

/-- `find_longest_match` over the whole of `a` and `b`: result `(i, j, size)`. -/
def lmBest (a b : List Char) : Nat × Nat × Nat :=
  (List.range a.length).foldl
    (fun acc i => (List.range b.length).foldl (fun acc j => lmStep a b acc i j) acc)
    (0, 0, 0)

/-- Recursive sum of the sizes of all matching blocks
(`get_matching_blocks`), with an explicit structural fuel; `totalMatches`
supplies sufficient fuel and `totalMatchesGo_fuel` below shows the value is
independent of the fuel from `a.length` upward. -/
def totalMatchesGo : Nat → List Char → List Char → Nat
  | 0, _, _ => 0
  | fuel + 1, a, b =>
    let t := lmBest a b
    if t.2.2 = 0 then 0
    else
      totalMatchesGo fuel (a.take t.1) (b.take t.2.1) + t.2.2 +
        totalMatchesGo fuel (a.drop (t.1 + t.2.2)) (b.drop (t.2.1 + t.2.2))

/-- Total size of all matching blocks of `a` and `b`. -/
def totalMatches (a b : List Char) : Nat :=
  totalMatchesGo a.length a b

/-- `SequenceMatcher(None, a, b).ratio()`:
`2 * matches / (len(a) + len(b))`, and `1.0` for two empty sequences. -/
def ratioOf (a b : List Char) : ℚ :=
  if a.length + b.length = 0 then 1
  else 2 * (totalMatches a b : ℚ) / (a.length + b.length)

/-- `SlidingWindowMatcher.calculate_text_similarity`. -/
def calculate_text_similarity (text1 text2 : String) : ℚ :=
  ratioOf text1.data text2.data

/-! ## The best-so-far loop shared by the matchers

`sliding_window_matcher.find_best_match` and `verification.find_matches` both
scan candidates in order, keeping `(best_similarity, best_position)` and
updating on a strict `>` comparison, with initial value `(0.0, -1)`. -/

/-- The strict-update loop: `i` is the index of the head of the remaining
candidate list. -/
def bestLoop : List ℚ → Nat → ℚ × Int → ℚ × Int
  | [], _, acc => acc
  | s :: rest, i, acc => bestLoop rest (i + 1) (if acc.1 < s then (s, (i : Int)) else acc)

/-! ## Data model of the word-timestamp pipeline (`ai-layer`) -/

/-- One entry of a transcription's `words` list: `{word, start, end}`. -/
structure WordTok where
  word : String
  start : ℚ
  end_ : ℚ
deriving DecidableEq, Repr

/-- A transcription record as consumed by `SlidingWindowMatcher`:
`normalized_text`, word-level timestamps, and the identity of the video. -/
structure Transcription where
  video_path : String
  video_name : String
  normalized_text : String
  words : List WordTok
deriving DecidableEq, Repr

/-- The dictionary returned by `SlidingWindowMatcher.find_best_match`.
Word indices are Python ints (they can be the `-1` sentinel). -/
structure MatchResult where
  video_path : String
  video_name : String
  start_time : ℚ
  end_time : ℚ
  similarity : ℚ
  start_word_index : Int
  end_word_index : Int
  matched_text : String
  clip_word_count : Nat
  duration : ℚ
deriving DecidableEq, Repr

/-- `split_into_words(transcription['normalized_text'])`. -/
def words_of (t : Transcription) : List String :=
  pySplit t.normalized_text

/-- The similarity of the clip text against each window
`video_words[i:i+clip_word_count]`, for `i = 0 .. vwc - cwc`. -/
def window_sims (clip_text : String) (video_words : List String) (cwc : Nat) : List ℚ :=
  (List.range (video_words.length - cwc + 1)).map
    (fun i => calculate_text_similarity clip_text (joinWords ((video_words.drop i).take cwc)))

/-- All window similarities examined by `find_best_match` for a clip/video
pair, in window order. -/
def sims_of (clip video : Transcription) : List ℚ :=
  window_sims (joinWords (words_of clip)) (words_of video) (words_of clip).length

/-- The `(best_similarity, best_position)` pair computed by the sliding loop
of `find_best_match` (initial value `(0.0, -1)`, strict `>` updates). -/
def best_of (clip video : Transcription) : ℚ × Int :=
  bestLoop (sims_of clip video) 0 (0, -1)

/-- `SlidingWindowMatcher.find_best_match`. A Python `IndexError` (possible
when the `-1` sentinel position slips past the upper-bound guard and the
`words` list is empty) is modelled as `.error "IndexError"`. -/
def find_best_match (similarity_threshold : ℚ) (clip video : Transcription) :
    Except String (Option MatchResult) :=
  if (words_of clip).length = 0 ∨ (words_of video).length = 0 then .ok none
  else if (words_of video).length < (words_of clip).length then .ok none
  else if (best_of clip video).1 < similarity_threshold then .ok none
  else if (video.words.length : Int) ≤ (best_of clip video).2 ∨
      (video.words.length : Int) ≤ (best_of clip video).2 + (words_of clip).length - 1 then
    .ok none
  else
    match pyGet video.words (best_of clip video).2,
        pyGet video.words ((best_of clip video).2 + (words_of clip).length - 1) with
    | some ws, some we =>
      .ok (some {
        video_path := video.video_path
        video_name := video.video_name
        start_time := ws.start
        end_time := we.end_
        similarity := (best_of clip video).1
        start_word_index := (best_of clip video).2
        end_word_index := (best_of clip video).2 + (words_of clip).length - 1
        matched_text := joinWords (pySlice (words_of video) (best_of clip video).2
          ((best_of clip video).2 + (words_of clip).length - 1 + 1))
        clip_word_count := (words_of clip).length
        duration := we.end_ - ws.start })
    | _, _ => .error "IndexError"

/-! ## Stable descending sort (Python `list.sort(key=..., reverse=True)`) -/

/-- Insert an element after every already-placed element whose key is at
least as large: the result of folding this over a list is the stable
descending sort that Python's `list.sort(..., reverse=True)` produces. -/
def insertDesc {α : Type} (key : α → ℚ) (a : α) : List α → List α
  | [] => [a]
  | x :: xs => if key x < key a then a :: x :: xs else x :: insertDesc key a xs

/-- Stable sort, descending by `key`. -/
def sort_desc_by {α : Type} (key : α → ℚ) (l : List α) : List α :=
  l.foldl (fun acc a => insertDesc key a acc) []

/-! ## `search_all_videos` and the `/verify` endpoint (`api_server.py`) -/

/-- `SlidingWindowMatcher.search_all_videos` before its final sort: call
`find_best_match` on every video in order and collect the hits. An exception
raised inside `find_best_match` propagates. -/
def collect_matches (threshold : ℚ) (clip : Transcription) :
    List Transcription → Except String (List MatchResult)
  | [] => .ok []
  | v :: rest =>
    match find_best_match threshold clip v with
    | .error e => .error e
    | .ok none => collect_matches threshold clip rest
    | .ok (some m) =>
      match collect_matches threshold clip rest with
      | .error e => .error e
      | .ok ms => .ok (m :: ms)

/-- `SlidingWindowMatcher.search_all_videos`: collect then sort by similarity,
highest first (Python's stable `list.sort(reverse=True)`). -/
def search_all_videos (threshold : ℚ) (clip : Transcription)
    (videos : List Transcription) : Except String (List MatchResult) :=
  match collect_matches threshold clip videos with
  | .error e => .error e
  | .ok ms => .ok (sort_desc_by (fun m => m.similarity) ms)

/-- `TEXT_THRESHOLD = 0.80` in `api_server.py`. -/
def TEXT_THRESHOLD : ℚ := 80 / 100

/-- `SPEAKER_THRESHOLD = 0.85` in `api_server.py`. -/
def SPEAKER_THRESHOLD : ℚ := 85 / 100

/-- The verdict part of `SpeakerVerifier.verify_speaker`: given the embedding
similarity produced by the provider, `verified = similarity >= threshold`. -/
structure SpeakerResult where
  verified : Bool
  similarity : ℚ
  threshold : ℚ
  message : String
deriving DecidableEq, Repr

/-- `SpeakerVerifier.verify_speaker`, with the provider-computed similarity
already in hand (audio extraction and embedding are external providers). -/
def verify_speaker (threshold similarity : ℚ) : SpeakerResult :=
  { verified := decide (threshold ≤ similarity)
    similarity := similarity
    threshold := threshold
    message := if threshold ≤ similarity then "Same speaker"
               else "Different speaker - possible deepfake" }

/-- The `speaker_verification` field of the `/verify` response: either the
dictionary built from a successful `verify_speaker` call, or the failure
dictionary built in the `except` branch. -/
inductive SpeakerVerification where
  | ok (verified : Bool) (similarity threshold : ℚ) (message : String)
  | failed (error message : String)
deriving DecidableEq, Repr

/-- The fields of the `/verify` response that the verdict logic determines. -/
structure VerifyResult where
  verified : Bool
  verification_type : String
  match_list : List MatchResult
  best_match : Option MatchResult
  speaker_verification : Option SpeakerVerification
deriving DecidableEq, Repr

/-- HTTP-error outcomes of the `/verify` endpoint. -/
inductive ApiError where
  | noVideosFound
  | internalError (msg : String)
deriving DecidableEq, Repr

/-- The decision logic of the `/verify` endpoint (`api_server.verify_clip`),
over already-transcribed inputs: the available reference transcriptions, the
clip transcription, and the speaker-similarity provider outcome (`.error`
when audio extraction / embedding raises). `ApiError.noVideosFound` is the
HTTP 404 raised when no reference videos are present. -/
def verify_clip (videos : List Transcription) (clip : Transcription)
    (speaker_provider : Except String ℚ) : Except ApiError VerifyResult :=
  if videos = [] then .error .noVideosFound
  else
    match search_all_videos TEXT_THRESHOLD clip videos with
    | .error e => .error (.internalError e)
    | .ok found =>
      match found.head? with
      | none =>
        .ok { verified := false, verification_type := "not_verified",
              match_list := found, best_match := none, speaker_verification := none }
      | some best_match =>
        match speaker_provider with
        | .ok sim =>
          let sr := verify_speaker SPEAKER_THRESHOLD sim
          .ok { verified := sr.verified
                verification_type := if sr.verified then "full" else "content_only"
                match_list := found
                best_match := some best_match
                speaker_verification :=
                  some (.ok sr.verified sr.similarity sr.threshold sr.message) }
        | .error e =>
          .ok { verified := false
                verification_type := "content_only"
                match_list := found
                best_match := some best_match
                speaker_verification := some (.failed e "Speaker verification failed") }

/-! ## Splice detector (`run_frankenstein_tests.py`, max-gap analysis) -/

/-- The verdicts of the timestamp analysis: `noMatches` is the
"no false positive" branch, `onlyOne` the "partial detection - most segments
rejected" branch, `continuous` is "appears continuous", `edited` is
"editing detected via scattered timestamps". -/
inductive SpliceVerdict where
  | noMatches
  | onlyOne
  | continuous
  | edited
deriving DecidableEq, Repr

/-- Consecutive differences `timestamps[i+1] - timestamps[i]`. -/
def consecutiveGaps : List ℚ → List ℚ
  | a :: b :: rest => (b - a) :: consecutiveGaps (b :: rest)
  | _ => []

/-- `max(timestamps[i+1] - timestamps[i] for i in range(len-1))`; the code
only evaluates it for two or more matches, so the empty default is never
reached there. -/
def max_gap (ts : List ℚ) : ℚ :=
  match consecutiveGaps ts with
  | [] => 0
  | g :: gs => gs.foldl max g

/-- The verdict analysis of `run_frankenstein_tests.py` on the
`original_timestamp` values of the reported matches (in reported order). -/
def spliceAnalysis (timestamps : List ℚ) : SpliceVerdict :=
  match timestamps with
  | [] => .noMatches
  | [_] => .onlyOne
  | ts => if max_gap ts > 300 then .edited else .continuous

/-! ## Fingerprint similarity and `find_matches` (`verification.py`) -/

/-- Number of set bits, Python `bin(n).count(chr(49))`, with structural fuel;
`popCountGo_fuel` below shows any fuel of at least `n` gives the same value. -/
def popCountGo : Nat → Nat → Nat
  | 0, _ => 0
  | fuel + 1, n => if n = 0 then 0 else n % 2 + popCountGo fuel (n / 2)

/-- Number of set binary digits of `n`. -/
def popCount (n : Nat) : Nat :=
  popCountGo n n

/-- The loop body of `calculate_similarity` on the integer arrays: total
number of differing bits, `bin(arr1[i] ^ arr2[i]).count(chr(49))` summed over
`range(min_len)`. -/
def different_bits : List Nat → List Nat → Nat
  | a :: as, b :: bs => popCount (a ^^^ b) + different_bits as bs
  | _, _ => 0

/-- Hamming distance of the fallback `hash` strings:
`sum(c1 != c2 for c1, c2 in zip(hash1, hash2))`. -/
def hash_differences : List Char → List Char → Nat
  | c1 :: r1, c2 :: r2 => (if c1 = c2 then 0 else 1) + hash_differences r1 r2
  | _, _ => 0

/-- A fingerprint dictionary as stored in the video database and produced for
clips: `fp.get('fingerprint', [])`, `fp.get('hash', '')`, `fp['timestamp']`
(a missing key is modelled by the empty default). -/
structure FPDict where
  fingerprint : List Nat
  hash : String
  timestamp : ℚ
deriving DecidableEq, Repr

/-- `VideoVerifier.calculate_similarity`. The result is `none` exactly when
the Python code raises `ZeroDivisionError` (empty arrays and empty equal
hashes). -/
def calculate_similarity (fp1 fp2 : FPDict) : Option ℚ :=
  if fp1.fingerprint = [] ∨ fp2.fingerprint = [] then
    if fp1.hash.data.length ≠ fp2.hash.data.length then some 0
    else if fp1.hash.data.length = 0 then none
    else some (1 - (hash_differences fp1.hash.data fp2.hash.data : ℚ) / fp1.hash.data.length)
  else
    if min fp1.fingerprint.length fp2.fingerprint.length = 0 then some 0
    else some (1 - (different_bits fp1.fingerprint fp2.fingerprint : ℚ) /
      (32 * min fp1.fingerprint.length fp2.fingerprint.length))

/-- A stored reference video: `{id, title, fingerprints}`. -/
structure Video where
  id : String
  title : String
  fingerprints : List FPDict
deriving DecidableEq, Repr

/-- A reported match of `find_matches` (the `Match` dataclass). -/
structure Match where
  video_id : String
  video_title : String
  clip_timestamp : ℚ
  original_timestamp : ℚ
  confidence : ℚ
  fingerprint_matches : Nat
deriving DecidableEq, Repr

/-- The inner scan of one clip fingerprint against all fingerprints of one
video: the list of similarities in video order (an exception in
`calculate_similarity` propagates). -/
def sims_against (clip_fp : FPDict) : List FPDict → Except String (List ℚ)
  | [] => .ok []
  | vfp :: rest =>
    match calculate_similarity clip_fp vfp with
    | none => .error "ZeroDivisionError"
    | some s =>
      match sims_against clip_fp rest with
      | .error e => .error e
      | .ok ss => .ok (s :: ss)

/-- The consecutive-extension loop of `find_matches`: starting from
`offset = 1`, with `steps` the number of remaining offsets
(`min(len(clip) - clip_idx, len(video_fps) - best_idx) - 1`), accumulate
`(consecutive_matches, total_similarity)` while the similarity stays at or
above the threshold. -/
def extendGo (t : ℚ) (clip video_fps : List FPDict) (clip_idx : Nat) (best_idx : Int) :
    Nat → Nat → Nat × ℚ → Except String (Nat × ℚ)
  | _, 0, acc => .ok acc
  | offset, steps + 1, acc =>
    match pyGet clip ((clip_idx : Int) + offset), pyGet video_fps (best_idx + offset) with
    | some cfp, some vfp =>
      match calculate_similarity cfp vfp with
      | none => .error "ZeroDivisionError"
      | some s =>
        if t ≤ s then
          extendGo t clip video_fps clip_idx best_idx (offset + 1) steps (acc.1 + 1, acc.2 + s)
        else .ok acc
    | _, _ => .error "IndexError"

/-- The scan of one video against the (current) clip fingerprint list: the
`for clip_idx, clip_fp in enumerate(clip_fingerprints)` loop. Returns the
first recorded match together with the truncation point
`clip_idx + consecutive_matches` (the loop `break`s right after recording),
or `none` when the loop finishes without recording a match. -/
def clipLoopGo (t : ℚ) (m : Nat) (video : Video) (clip_fps : List FPDict) :
    Nat → Nat → Except String (Option (Match × Nat))
  | _, 0 => .ok none
  | clip_idx, fuel + 1 =>
    match clip_fps.get? clip_idx with
    | none => .ok none
    | some clip_fp =>
      match sims_against clip_fp video.fingerprints with
      | .error e => .error e
      | .ok sims =>
        let best := bestLoop sims 0 (0, -1)
        if t ≤ best.1 then
          let bound : Int := min ((clip_fps.length : Int) - clip_idx)
            ((video.fingerprints.length : Int) - best.2)
          match extendGo t clip_fps video.fingerprints clip_idx best.2 1
              (bound - 1).toNat (1, best.1) with
          | .error e => .error e
          | .ok (consecutive, total) =>
            if m ≤ consecutive then
              match pyGet video.fingerprints best.2 with
              | some vfp0 =>
                .ok (some ({ video_id := video.id
                             video_title := video.title
                             clip_timestamp := clip_fp.timestamp
                             original_timestamp := vfp0.timestamp
                             confidence := total / consecutive
                             fingerprint_matches := consecutive }, clip_idx + consecutive))
              | none => .error "IndexError"
            else clipLoopGo t m video clip_fps (clip_idx + 1) fuel
        else clipLoopGo t m video clip_fps (clip_idx + 1) fuel

/-- The scan of one video over the whole clip fingerprint list. -/
def clipLoop (t : ℚ) (m : Nat) (video : Video) (clip_fps : List FPDict) :
    Except String (Option (Match × Nat)) :=
  clipLoopGo t m video clip_fps 0 clip_fps.length

/-- The outer `for video in all_videos` loop of `find_matches`: the clip
fingerprint list is threaded through (it is truncated whenever a match is
recorded), matches accumulate in discovery order. -/
def findGo (t : ℚ) (m : Nat) : List Video → List FPDict → List Match →
    Except String (List Match)
  | [], _, acc => .ok acc
  | v :: vs, clip_fps, acc =>
    match clipLoop t m v clip_fps with
    | .error e => .error e
    | .ok none => findGo t m vs clip_fps acc
    | .ok (some (mt, cut)) => findGo t m vs (clip_fps.drop cut) (acc ++ [mt])

/-- `VideoVerifier.find_matches`: scan every video, then sort the recorded
matches by confidence, highest first. -/
def find_matches (t : ℚ) (m : Nat) (all_videos : List Video)
    (clip_fingerprints : List FPDict) : Except String (List Match) :=
  match findGo t m all_videos clip_fingerprints [] with
  | .error e => .error e
  | .ok ms => .ok (sort_desc_by (fun mt => mt.confidence) ms)


/-! ## Concrete inputs used in the claim theorems and witnesses -/

/-- A clip transcription whose normalized text is the two words `c d`. -/
def exClip : Transcription :=
  { video_path := "clip.mp4", video_name := "clip.mp4"
    normalized_text := "c d"
    words := [⟨"c", 0, 1⟩, ⟨"d", 1, 2⟩] }

/-- A reference transcription with words `a b c d e`, word `k` spoken during
`[k, k+1]` seconds. -/
def exVideo : Transcription :=
  { video_path := "v.mp4", video_name := "v.mp4"
    normalized_text := "a b c d e"
    words := [⟨"a", 0, 1⟩, ⟨"b", 1, 2⟩, ⟨"c", 2, 3⟩, ⟨"d", 3, 4⟩, ⟨"e", 4, 5⟩] }

/-- The match that `find_best_match` reports for `exClip` inside `exVideo`. -/
def exMatch : MatchResult :=
  { video_path := "v.mp4", video_name := "v.mp4"
    start_time := 2, end_time := 4, similarity := 1
    start_word_index := 2, end_word_index := 3
    matched_text := "c d", clip_word_count := 2, duration := 2 }

/-- A clip transcription (`q q`) that matches nowhere in `exVideo`. -/
def exClipNM : Transcription :=
  { video_path := "c", video_name := "c"
    normalized_text := "q q"
    words := [⟨"q", 0, 1⟩, ⟨"q", 1, 2⟩] }

/-- One-word clip `x`, sharing no character with `y`. -/
def cX : Transcription :=
  { video_path := "c", video_name := "c", normalized_text := "x", words := [⟨"x", 0, 1⟩] }

/-- One-word reference `y` whose timestamped `words` list is empty. -/
def vY0 : Transcription :=
  { video_path := "v", video_name := "v", normalized_text := "y", words := [] }

/-- One-word reference `y` with one timestamped word entry. -/
def vY1 : Transcription :=
  { video_path := "v", video_name := "v", normalized_text := "y", words := [⟨"y", 5, 6⟩] }

/-- The degenerate match `find_best_match` returns for `cX` in `vY1` at
threshold `0`: the `-1` sentinel position reaches the output and the
timestamps are read from the last word entry by Python negative indexing. -/
def mNeg : MatchResult :=
  { video_path := "v", video_name := "v"
    start_time := 5, end_time := 6, similarity := 0
    start_word_index := -1, end_word_index := -1
    matched_text := "", clip_word_count := 1, duration := 1 }

/-- Fingerprint dictionary with empty array and empty hash. -/
def fpE : FPDict := ⟨[], "", 0⟩

/-- Fingerprint dictionary with empty array and hash `ab`. -/
def fpH : FPDict := ⟨[], "ab", 0⟩

/-- Fingerprint dictionary with nonempty array and hash `ab`. -/
def fpG : FPDict := ⟨[1], "ab", 0⟩

/-- A clip fingerprint stream with two disjoint regions: value 0 at time 0
and value 7 at time 1. -/
def exClipFP : List FPDict := [⟨[0], "", 0⟩, ⟨[7], "", 1⟩]

/-- One reference video aligning with both clip regions, at reference indices
0 and 2 (index 1 between them does not align). -/
def exV : Video := ⟨"V", "V", [⟨[0], "", 10⟩, ⟨[1], "", 11⟩, ⟨[7], "", 12⟩]⟩

/-- The single run that `find_matches` reports for `exClipFP` against `exV`. -/
def exM0 : Match := ⟨"V", "V", 0, 10, 1, 1⟩

/-- The run over the remaining clip suffix that scanning `exV` again would
report. -/
def exM1 : Match := ⟨"V", "V", 1, 12, 1, 1⟩

/-- A two-fingerprint clip for the store-order dependence example. -/
def exClip9 : List FPDict := [⟨[0], "", 0⟩, ⟨[1], "", 1⟩]

/-- A reference matching only the first clip fingerprint. -/
def vA9 : Video := ⟨"A", "A", [⟨[0], "", 100⟩]⟩

/-- A reference aligning with the whole clip. -/
def vB9 : Video := ⟨"B", "B", [⟨[0], "", 200⟩, ⟨[1], "", 201⟩]⟩

/-- The run reported against `vA9` when it is scanned first. -/
def mA9 : Match := ⟨"A", "A", 0, 100, 1, 1⟩

/-- The run reported against `vB9` when `vA9` precedes it in the store. -/
def mB9w : Match := ⟨"B", "B", 1, 201, 1, 1⟩

/-- The run reported against `vB9` when it is the only reference. -/
def mB9a : Match := ⟨"B", "B", 0, 200, 1, 2⟩

/-! ## Library lemmas about the embedded definitions -/

/-! ### Fuel adequacy for `totalMatches` -/

theorem foldl_induction {α β : Type} {P : α → Prop} (f : α → β → α) :
    ∀ (l : List β) (acc0 : α), P acc0 → (∀ acc x, x ∈ l → P acc → P (f acc x)) →
      P (l.foldl f acc0)
  | [], _, h0, _ => h0
  | x :: xs, acc0, h0, hstep =>
    foldl_induction f xs (f acc0 x) (hstep acc0 x (List.mem_cons_self x xs) h0)
      (fun acc y hy => hstep acc y (List.mem_cons_of_mem x hy))

theorem commonPrefixLen_le_left : ∀ a b : List Char, commonPrefixLen a b ≤ a.length := by
  intro a
  induction a with
  | nil => intro b; cases b <;> simp [commonPrefixLen]
  | cons x xs ih =>
    intro b
    cases b with
    | nil => simp [commonPrefixLen]
    | cons y ys =>
      by_cases h : x = y <;> simp [commonPrefixLen, h]
      exact ih ys

theorem commonPrefixLen_le_right : ∀ a b : List Char, commonPrefixLen a b ≤ b.length := by
  intro a
  induction a with
  | nil => intro b; cases b <;> simp [commonPrefixLen]
  | cons x xs ih =>
    intro b
    cases b with
    | nil => simp [commonPrefixLen]
    | cons y ys =>
      by_cases h : x = y <;> simp [commonPrefixLen, h]
      exact ih ys

/-- The block found by `lmBest` lies inside both sequences. -/
theorem lmBest_bound (a b : List Char) :
    (lmBest a b).1 + (lmBest a b).2.2 ≤ a.length ∧
      (lmBest a b).2.1 + (lmBest a b).2.2 ≤ b.length := by
  unfold lmBest
  apply foldl_induction (P := fun acc : Nat × Nat × Nat =>
    acc.1 + acc.2.2 ≤ a.length ∧ acc.2.1 + acc.2.2 ≤ b.length)
  · constructor <;> simp
  · intro acc i hi hacc
    apply foldl_induction (P := fun acc : Nat × Nat × Nat =>
      acc.1 + acc.2.2 ≤ a.length ∧ acc.2.1 + acc.2.2 ≤ b.length)
    · exact hacc
    · intro acc2 j hj hacc2
      unfold lmStep
      by_cases hk : acc2.2.2 < commonPrefixLen (a.drop i) (b.drop j)
      · simp only [hk, if_pos]
        have hi' : i < a.length := List.mem_range.mp hi
        have hj' : j < b.length := List.mem_range.mp hj
        have h1 : commonPrefixLen (a.drop i) (b.drop j) ≤ a.length - i := by
          have := commonPrefixLen_le_left (a.drop i) (b.drop j)
          simpa [List.length_drop] using this
        have h2 : commonPrefixLen (a.drop i) (b.drop j) ≤ b.length - j := by
          have := commonPrefixLen_le_right (a.drop i) (b.drop j)
          simpa [List.length_drop] using this
        refine ⟨?_, ?_⟩
        · show i + commonPrefixLen (a.drop i) (b.drop j) ≤ a.length
          omega
        · show j + commonPrefixLen (a.drop i) (b.drop j) ≤ b.length
          omega
      · simp only [hk, if_neg, not_false_iff]
        exact hacc2

theorem lmBest_nil (b : List Char) : lmBest [] b = (0, 0, 0) := rfl

/-- The value of `totalMatchesGo` does not depend on the fuel once the fuel is
at least `a.length`: the definition with fuel `a.length` computes the real
recursion of `get_matching_blocks`. -/
theorem totalMatchesGo_fuel :
    ∀ f (a b : List Char), a.length ≤ f →
      totalMatchesGo f a b = totalMatchesGo a.length a b := by
  intro f
  induction f using Nat.strong_induction_on with
  | _ f ih =>
    intro a b hf
    match f, hf with
    | 0, hf =>
      have ha : a.length = 0 := Nat.le_zero.mp hf
      rw [ha]
    | f' + 1, hf =>
      rcases ha : a.length with _ | n
      · have ha' : a = [] := List.length_eq_zero.mp ha
        subst ha'
        simp [totalMatchesGo, lmBest_nil]
      · simp only [totalMatchesGo]
        by_cases hk : (lmBest a b).2.2 = 0
        · simp [hk]
        · simp only [hk, if_neg, not_false_iff]
          have hb := lmBest_bound a b
          have hk1 : 1 ≤ (lmBest a b).2.2 := Nat.one_le_iff_ne_zero.mpr hk
          have hlen1 : (a.take (lmBest a b).1).length ≤ n := by
            simp only [List.length_take]
            omega
          have hlen2 : (a.drop ((lmBest a b).1 + (lmBest a b).2.2)).length ≤ n := by
            simp only [List.length_drop]
            omega
          have hnf : n ≤ f' := by omega
          rw [ih f' (Nat.lt_succ_self f') _ _ (le_trans hlen1 hnf),
            ih n (by omega) _ _ hlen1,
            ih f' (Nat.lt_succ_self f') _ _ (le_trans hlen2 hnf),
            ih n (by omega) _ _ hlen2]

/-- Unfolding equation for `totalMatches`: it satisfies the recursion of
difflib's `get_matching_blocks` (find the longest block, recurse on what is
left of it and on what is right of it). -/
theorem totalMatches_eq (a b : List Char) :
    totalMatches a b =
      if (lmBest a b).2.2 = 0 then 0
      else
        totalMatches (a.take (lmBest a b).1) (b.take (lmBest a b).2.1) +
          (lmBest a b).2.2 +
          totalMatches (a.drop ((lmBest a b).1 + (lmBest a b).2.2))
            (b.drop ((lmBest a b).2.1 + (lmBest a b).2.2)) := by
  unfold totalMatches
  rcases ha : a.length with _ | n
  · have ha' : a = [] := List.length_eq_zero.mp ha
    subst ha'
    simp [totalMatchesGo, lmBest_nil]
  · simp only [totalMatchesGo]
    by_cases hk : (lmBest a b).2.2 = 0
    · simp [hk]
    · simp only [hk, if_neg, not_false_iff]
      have hb := lmBest_bound a b
      have hk1 : 1 ≤ (lmBest a b).2.2 := Nat.one_le_iff_ne_zero.mpr hk
      have hlen1 : (a.take (lmBest a b).1).length ≤ n := by
        simp only [List.length_take]
        omega
      have hlen2 : (a.drop ((lmBest a b).1 + (lmBest a b).2.2)).length ≤ n := by
        simp only [List.length_drop]
        omega
      rw [totalMatchesGo_fuel n _ _ hlen1, totalMatchesGo_fuel n _ _ hlen2]

theorem bestLoop_le : ∀ (l : List ℚ) (i : Nat) (acc : ℚ × Int),
    acc.1 ≤ (bestLoop l i acc).1 := by
  intro l
  induction l with
  | nil => intro i acc; simp [bestLoop]
  | cons s rest ih =>
    intro i acc
    simp only [bestLoop]
    by_cases h : acc.1 < s
    · simp only [h, if_pos]
      exact le_trans (le_of_lt h) (ih (i + 1) (s, (i : Int)))
    · simp only [h, if_neg, not_false_iff]
      exact ih (i + 1) acc

theorem bestLoop_mem_le : ∀ (l : List ℚ) (i : Nat) (acc : ℚ × Int),
    ∀ x ∈ l, x ≤ (bestLoop l i acc).1 := by
  intro l
  induction l with
  | nil => intro i acc x hx; cases hx
  | cons s rest ih =>
    intro i acc x hx
    rcases List.mem_cons.mp hx with hx | hx
    · rw [hx]
      simp only [bestLoop]
      by_cases h : acc.1 < s
      · simp only [h, if_pos]
        exact bestLoop_le rest (i + 1) (s, (i : Int))
      · simp only [h, if_neg, not_false_iff]
        exact le_trans (le_of_not_lt h) (bestLoop_le rest (i + 1) acc)
    · simp only [bestLoop]
      by_cases h : acc.1 < s
      · simp only [h, if_pos]
        exact ih (i + 1) (s, (i : Int)) x hx
      · simp only [h, if_neg, not_false_iff]
        exact ih (i + 1) acc x hx

theorem bestLoop_stay : ∀ (l : List ℚ) (i : Nat) (acc : ℚ × Int),
    (bestLoop l i acc).1 = acc.1 → bestLoop l i acc = acc := by
  intro l
  induction l with
  | nil => intro i acc _; rfl
  | cons s rest ih =>
    intro i acc heq
    simp only [bestLoop] at heq ⊢
    by_cases h : acc.1 < s
    · exfalso
      simp only [h, if_pos] at heq
      have := bestLoop_le rest (i + 1) (s, (i : Int))
      simp only [heq] at this
      exact absurd (lt_of_lt_of_le h this) (lt_irrefl acc.1)
    · simp only [h, if_neg, not_false_iff] at heq ⊢
      exact ih (i + 1) acc heq

/-- When the loop strictly improves on its initial accumulator, the final
position is the index of the first candidate attaining the final best value,
and every earlier candidate is strictly below it. -/
theorem bestLoop_argmax : ∀ (l : List ℚ) (i : Nat) (acc : ℚ × Int),
    acc.1 < (bestLoop l i acc).1 →
    ∃ k : Nat, (bestLoop l i acc).2 = ((i + k : Nat) : Int) ∧
      l.get? k = some (bestLoop l i acc).1 ∧
      ∀ j x, j < k → l.get? j = some x → x < (bestLoop l i acc).1 := by
  intro l
  induction l with
  | nil => intro i acc h; exact absurd h (lt_irrefl acc.1)
  | cons s rest ih =>
    intro i acc h
    simp only [bestLoop] at h ⊢
    by_cases hs : acc.1 < s
    · simp only [hs, if_pos] at h ⊢
      by_cases h2 : s < (bestLoop rest (i + 1) (s, (i : Int))).1
      · obtain ⟨k', hk1, hk2, hk3⟩ := ih (i + 1) (s, (i : Int)) h2
        refine ⟨k' + 1, ?_, ?_, ?_⟩
        · rw [hk1]
          congr 1
          omega
        · simpa using hk2
        · intro j x hj hx
          cases j with
          | zero =>
            simp only [List.get?] at hx
            cases hx
            exact h2
          | succ j' =>
            exact hk3 j' x (Nat.lt_of_succ_lt_succ hj) (by simpa using hx)
      · have hfix : (bestLoop rest (i + 1) (s, (i : Int))).1 = s :=
          le_antisymm (le_of_not_lt h2) (bestLoop_le rest (i + 1) (s, (i : Int)))
        have := bestLoop_stay rest (i + 1) (s, (i : Int)) hfix
        refine ⟨0, ?_, ?_, ?_⟩
        · rw [this]
          simp
        · rw [this]
          rfl
        · intro j x hj _
          exact absurd hj (Nat.not_lt_zero j)
    · simp only [hs, if_neg, not_false_iff] at h ⊢
      obtain ⟨k', hk1, hk2, hk3⟩ := ih (i + 1) acc h
      refine ⟨k' + 1, ?_, ?_, ?_⟩
      · rw [hk1]
        congr 1
        omega
      · simpa using hk2
      · intro j x hj hx
        cases j with
        | zero =>
          simp only [List.get?] at hx
          cases hx
          exact lt_of_le_of_lt (le_of_not_lt hs) h
        | succ j' =>
          exact hk3 j' x (Nat.lt_of_succ_lt_succ hj) (by simpa using hx)

theorem insertDesc_length {α : Type} (key : α → ℚ) (a : α) :
    ∀ l : List α, (insertDesc key a l).length = l.length + 1 := by
  intro l
  induction l with
  | nil => rfl
  | cons x xs ih =>
    simp only [insertDesc]
    by_cases h : key x < key a
    · simp [h]
    · simp only [h, if_neg, not_false_iff, List.length_cons, ih]

theorem sort_desc_by_length {α : Type} (key : α → ℚ) (l : List α) :
    (sort_desc_by key l).length = l.length := by
  suffices h : ∀ (l acc : List α),
      (l.foldl (fun acc a => insertDesc key a acc) acc).length = acc.length + l.length by
    simpa using h l []
  intro l
  induction l with
  | nil => intro acc; simp
  | cons x xs ih =>
    intro acc
    simp only [List.foldl_cons, ih, insertDesc_length, List.length_cons]
    omega

theorem sort_desc_by_ne_nil {α : Type} (key : α → ℚ) (l : List α) (h : l ≠ []) :
    sort_desc_by key l ≠ [] := by
  intro hc
  apply h
  have := sort_desc_by_length key l
  rw [hc] at this
  exact List.length_eq_zero.mp this.symm

theorem sort_desc_by_eq_nil {α : Type} (key : α → ℚ) :
    sort_desc_by key [] = [] := rfl

theorem popCountGo_fuel : ∀ (n f g : Nat), n ≤ f → n ≤ g →
    popCountGo f n = popCountGo g n := by
  intro n
  induction n using Nat.strong_induction_on with
  | _ n ih =>
    intro f g hf hg
    match n, f, g, hf, hg with
    | 0, 0, 0, _, _ => rfl
    | 0, 0, g + 1, _, _ => simp [popCountGo]
    | 0, f + 1, 0, _, _ => simp [popCountGo]
    | 0, f + 1, g + 1, _, _ => simp [popCountGo]
    | n + 1, f + 1, g + 1, hf, hg =>
      simp only [popCountGo, Nat.succ_ne_zero, if_neg, not_false_iff]
      have hlt : (n + 1) / 2 < n + 1 := Nat.div_lt_self (Nat.succ_pos n) (by omega)
      rw [ih ((n + 1) / 2) hlt f ((n + 1) / 2) (by omega) (le_refl _),
        ih ((n + 1) / 2) hlt g ((n + 1) / 2) (by omega) (le_refl _)]

/-- The defining recursion of `popCount`. -/
theorem popCount_succ (n : Nat) (h : 0 < n) :
    popCount n = n % 2 + popCount (n / 2) := by
  match n, h with
  | n + 1, _ =>
    show popCountGo (n + 1) (n + 1) = (n + 1) % 2 + popCount ((n + 1) / 2)
    simp only [popCountGo, Nat.succ_ne_zero, if_neg, not_false_iff]
    congr 1
    exact popCountGo_fuel ((n + 1) / 2) n ((n + 1) / 2) (by omega) (le_refl _)

theorem popCount_zero : popCount 0 = 0 := rfl

/-- A number below `2 ^ k` has at most `k` set bits. -/
theorem popCount_le_of_lt_two_pow : ∀ (k n : Nat), n < 2 ^ k → popCount n ≤ k := by
  intro k
  induction k with
  | zero =>
    intro n hn
    have : n = 0 := by simpa using Nat.lt_one_iff.mp (by simpa using hn)
    rw [this, popCount_zero]
  | succ k ih =>
    intro n hn
    rcases Nat.eq_zero_or_pos n with h0 | h0
    · rw [h0, popCount_zero]; omega
    · rw [popCount_succ n h0]
      have hdiv : n / 2 < 2 ^ k := by
        have h2 : n < 2 * 2 ^ k := by
          rw [pow_succ] at hn
          omega
        exact Nat.div_lt_of_lt_mul h2
      have := ih (n / 2) hdiv
      omega

theorem different_bits_self : ∀ a : List Nat, different_bits a a = 0 := by
  intro a
  induction a with
  | nil => rfl
  | cons x xs ih => simp [different_bits, Nat.xor_self, popCount_zero, ih]

theorem different_bits_comm : ∀ a b : List Nat, different_bits a b = different_bits b a := by
  intro a
  induction a with
  | nil => intro b; cases b <;> rfl
  | cons x xs ih =>
    intro b
    cases b with
    | nil => rfl
    | cons y ys => simp [different_bits, Nat.xor_comm, ih ys]

/-- With 32-bit array elements, at most 32 bits differ per element. -/
theorem different_bits_le : ∀ a b : List Nat,
    (∀ x ∈ a, x < 2 ^ 32) → (∀ x ∈ b, x < 2 ^ 32) →
    different_bits a b ≤ 32 * min a.length b.length := by
  intro a
  induction a with
  | nil => intro b _ _; cases b <;> simp [different_bits]
  | cons x xs ih =>
    intro b ha hb
    cases b with
    | nil => simp [different_bits]
    | cons y ys =>
      have hx : x < 2 ^ 32 := ha x (List.mem_cons_self x xs)
      have hy : y < 2 ^ 32 := hb y (List.mem_cons_self y ys)
      have hxor : x ^^^ y < 2 ^ 32 := Nat.xor_lt_two_pow hx hy
      have h1 : popCount (x ^^^ y) ≤ 32 := popCount_le_of_lt_two_pow 32 _ hxor
      have h2 := ih ys (fun z hz => ha z (List.mem_cons_of_mem x hz))
        (fun z hz => hb z (List.mem_cons_of_mem y hz))
      simp only [different_bits, List.length_cons, Nat.succ_min_succ]
      calc popCount (x ^^^ y) + different_bits xs ys
      _ ≤ 32 + 32 * min xs.length ys.length := Nat.add_le_add h1 h2
      _ = 32 * (min xs.length ys.length + 1) := by ring

theorem hash_differences_le : ∀ a b : List Char, hash_differences a b ≤ a.length := by
  intro a
  induction a with
  | nil => intro b; cases b <;> simp [hash_differences]
  | cons x xs ih =>
    intro b
    cases b with
    | nil => simp [hash_differences]
    | cons y ys =>
      simp only [hash_differences, List.length_cons]
      have := ih ys
      by_cases h : x = y <;> simp [h] <;> omega

theorem pyGet_of_nonneg_of_lt {α : Type} (l : List α) (i : Int) (h0 : 0 ≤ i)
    (hlt : i < (l.length : Int)) : ∃ a, pyGet l i = some a := by
  have hn : i.toNat < l.length := by omega
  exact ⟨l.get ⟨i.toNat, hn⟩, by simp [pyGet, h0, List.get?_eq_get hn]⟩

theorem best_of_mem_le (clip video : Transcription) :
    ∀ x ∈ sims_of clip video, x ≤ (best_of clip video).1 := by
  intro x hx
  simpa [best_of] using bestLoop_mem_le (sims_of clip video) 0 (0, -1) x hx

/-- When the sliding loop ends with a positive best similarity, its position
is the first window attaining that best similarity. -/
theorem best_of_argmax (clip video : Transcription) (h : 0 < (best_of clip video).1) :
    ∃ k : Nat, (best_of clip video).2 = (k : Int) ∧
      (sims_of clip video).get? k = some (best_of clip video).1 ∧
      ∀ j x, j < k → (sims_of clip video).get? j = some x → x < (best_of clip video).1 := by
  have h' : ((0 : ℚ), (-1 : Int)).1 < (bestLoop (sims_of clip video) 0 (0, -1)).1 := by
    simpa [best_of] using h
  obtain ⟨k, hk1, hk2, hk3⟩ := bestLoop_argmax (sims_of clip video) 0 (0, -1) h'
  refine ⟨k, ?_, ?_, ?_⟩
  · simpa [best_of] using hk1
  · simpa [best_of] using hk2
  · simpa [best_of] using hk3

/-- With a positive threshold, `find_best_match` never raises. -/
theorem find_best_match_no_error (t : ℚ) (clip video : Transcription) (h0 : 0 < t)
    (e : String) : find_best_match t clip video ≠ .error e := by
  intro he
  unfold find_best_match at he
  by_cases h1 : (words_of clip).length = 0 ∨ (words_of video).length = 0
  · rw [if_pos h1] at he
    exact Except.noConfusion he
  · rw [if_neg h1] at he
    by_cases h2 : (words_of video).length < (words_of clip).length
    · rw [if_pos h2] at he
      exact Except.noConfusion he
    · rw [if_neg h2] at he
      by_cases h3 : (best_of clip video).1 < t
      · rw [if_pos h3] at he
        exact Except.noConfusion he
      · rw [if_neg h3] at he
        by_cases h4 : (video.words.length : Int) ≤ (best_of clip video).2 ∨
            (video.words.length : Int) ≤ (best_of clip video).2 + (words_of clip).length - 1
        · rw [if_pos h4] at he
          exact Except.noConfusion he
        · rw [if_neg h4] at he
          push_neg at h1 h4
          have hpos : 0 < (best_of clip video).1 := lt_of_lt_of_le h0 (le_of_not_lt h3)
          obtain ⟨k, hk, -, -⟩ := best_of_argmax clip video hpos
          have hs0 : 0 ≤ (best_of clip video).2 := by
            rw [hk]
            exact Int.natCast_nonneg k
          have hcw : (words_of clip).length ≠ 0 := h1.1
          have he0 : 0 ≤ (best_of clip video).2 + (words_of clip).length - 1 := by omega
          obtain ⟨ws, hws⟩ := pyGet_of_nonneg_of_lt video.words _ hs0 h4.1
          obtain ⟨we, hwe⟩ := pyGet_of_nonneg_of_lt video.words _ he0 h4.2
          rw [hws, hwe] at he
          exact Except.noConfusion he

/-- Characterization of a returned match for a positive threshold: it carries
the best similarity, the winning window position and timestamps read from
in-range word entries. -/
theorem find_best_match_some (t : ℚ) (clip video : Transcription) (h0 : 0 < t)
    (m : MatchResult) (hm : find_best_match t clip video = .ok (some m)) :
    t ≤ (best_of clip video).1 ∧
    m.similarity = (best_of clip video).1 ∧
    m.start_word_index = (best_of clip video).2 ∧
    m.end_word_index = (best_of clip video).2 + (words_of clip).length - 1 ∧
    m.clip_word_count = (words_of clip).length ∧
    0 ≤ m.start_word_index ∧ m.end_word_index < (video.words.length : Int) ∧
    (∃ ws we, pyGet video.words m.start_word_index = some ws ∧
      pyGet video.words m.end_word_index = some we ∧
      m.start_time = ws.start ∧ m.end_time = we.end_) := by
  unfold find_best_match at hm
  by_cases h1 : (words_of clip).length = 0 ∨ (words_of video).length = 0
  · rw [if_pos h1] at hm
    simp at hm
  · rw [if_neg h1] at hm
    by_cases h2 : (words_of video).length < (words_of clip).length
    · rw [if_pos h2] at hm
      simp at hm
    · rw [if_neg h2] at hm
      by_cases h3 : (best_of clip video).1 < t
      · rw [if_pos h3] at hm
        simp at hm
      · rw [if_neg h3] at hm
        by_cases h4 : (video.words.length : Int) ≤ (best_of clip video).2 ∨
            (video.words.length : Int) ≤ (best_of clip video).2 + (words_of clip).length - 1
        · rw [if_pos h4] at hm
          simp at hm
        · rw [if_neg h4] at hm
          push_neg at h1 h4
          have hpos : 0 < (best_of clip video).1 := lt_of_lt_of_le h0 (le_of_not_lt h3)
          obtain ⟨k, hk, -, -⟩ := best_of_argmax clip video hpos
          have hs0 : 0 ≤ (best_of clip video).2 := by
            rw [hk]
            exact Int.natCast_nonneg k
          have hcw : (words_of clip).length ≠ 0 := h1.1
          have he0 : 0 ≤ (best_of clip video).2 + (words_of clip).length - 1 := by omega
          obtain ⟨ws, hws⟩ := pyGet_of_nonneg_of_lt video.words _ hs0 h4.1
          obtain ⟨we, hwe⟩ := pyGet_of_nonneg_of_lt video.words _ he0 h4.2
          rw [hws, hwe] at hm
          have hrec := Option.some.inj (Except.ok.inj hm)
          subst hrec
          refine ⟨le_of_not_lt h3, rfl, rfl, rfl, rfl, hs0, h4.2, ws, we, ?_, ?_, rfl, rfl⟩
          · exact hws
          · exact hwe

/-- When the best similarity over all windows is below the threshold (and the
degenerate early-return branches do not fire), no match is returned. -/
theorem find_best_match_none_of_lt (t : ℚ) (clip video : Transcription)
    (hq : (words_of clip).length ≠ 0) (hr : (words_of video).length ≠ 0)
    (hle : (words_of clip).length ≤ (words_of video).length)
    (hlt : (best_of clip video).1 < t) :
    find_best_match t clip video = .ok none := by
  unfold find_best_match
  rw [if_neg (by push_neg; exact ⟨hq, hr⟩), if_neg (not_lt.mpr hle), if_pos hlt]

/-- With a positive threshold, collecting matches over any video list
succeeds (no exception escapes `find_best_match`). -/
theorem collect_matches_ok (t : ℚ) (clip : Transcription) (h0 : 0 < t) :
    ∀ videos : List Transcription, ∃ ms, collect_matches t clip videos = .ok ms := by
  intro videos
  induction videos with
  | nil => exact ⟨[], rfl⟩
  | cons v vs ih =>
    obtain ⟨ms, hms⟩ := ih
    cases hfb : find_best_match t clip v with
    | error e => exact absurd hfb (find_best_match_no_error t clip v h0 e)
    | ok o =>
      cases o with
      | none =>
        refine ⟨ms, ?_⟩
        simp only [collect_matches, hfb, hms]
      | some m =>
        refine ⟨m :: ms, ?_⟩
        simp only [collect_matches, hfb, hms]

theorem search_all_videos_ok (t : ℚ) (clip : Transcription) (h0 : 0 < t)
    (videos : List Transcription) :
    ∃ ms, search_all_videos t clip videos = .ok ms := by
  obtain ⟨ms, hms⟩ := collect_matches_ok t clip h0 videos
  exact ⟨sort_desc_by (fun m => m.similarity) ms, by simp only [search_all_videos, hms]⟩

/-- Each video contributes at most one match to the accumulator. -/
theorem findGo_length (t : ℚ) (m : Nat) :
    ∀ (videos : List Video) (clip : List FPDict) (acc ms : List Match),
      findGo t m videos clip acc = .ok ms → ms.length ≤ acc.length + videos.length := by
  intro videos
  induction videos with
  | nil =>
    intro clip acc ms h
    have : acc = ms := Except.ok.inj h
    subst this
    simp
  | cons v vs ih =>
    intro clip acc ms h
    simp only [findGo] at h
    cases hcl : clipLoop t m v clip with
    | error e =>
      rw [hcl] at h
      exact Except.noConfusion h
    | ok o =>
      rw [hcl] at h
      cases o with
      | none =>
        have := ih clip acc ms h
        simp only [List.length_cons]
        omega
      | some p =>
        have := ih (clip.drop p.2) (acc ++ [p.1]) ms h
        simp only [List.length_append, List.length_cons, List.length_nil] at this ⊢
        omega

/-- `find_matches` reports at most one match per stored video. -/
theorem find_matches_length (t : ℚ) (m : Nat) (videos : List Video) (clip : List FPDict)
    (ms : List Match) (h : find_matches t m videos clip = .ok ms) :
    ms.length ≤ videos.length := by
  unfold find_matches at h
  cases hg : findGo t m videos clip [] with
  | error e =>
    rw [hg] at h
    exact Except.noConfusion h
  | ok ms0 =>
    rw [hg] at h
    have h1 := findGo_length t m videos clip [] ms0 hg
    have h2 := sort_desc_by_length (fun mt => mt.confidence) ms0
    have h3 : sort_desc_by (fun mt => mt.confidence) ms0 = ms := Except.ok.inj h
    rw [← h3, h2]
    simpa using h1

/-! ## Claim theorems -/

/-- C7: for every pair of nonempty fingerprint integer arrays, the bit-packed
similarity equals `1 - differing_bits / total_bits` with
`total_bits = min_len * 32`; consequently `similarity(a,a) = 1` and
`similarity(a,b) = similarity(b,a)`. -/
theorem C7_bit_packed_similarity (fp1 fp2 : FPDict)
    (h1 : fp1.fingerprint ≠ []) (h2 : fp2.fingerprint ≠ []) :
    calculate_similarity fp1 fp2 =
      some (1 - (different_bits fp1.fingerprint fp2.fingerprint : ℚ) /
        (32 * min fp1.fingerprint.length fp2.fingerprint.length)) ∧
    calculate_similarity fp1 fp1 = some 1 ∧
    calculate_similarity fp1 fp2 = calculate_similarity fp2 fp1 := by
  have formula : ∀ g1 g2 : FPDict, g1.fingerprint ≠ [] → g2.fingerprint ≠ [] →
      calculate_similarity g1 g2 =
        some (1 - (different_bits g1.fingerprint g2.fingerprint : ℚ) /
          (32 * min g1.fingerprint.length g2.fingerprint.length)) := by
    intro g1 g2 hg1 hg2
    have l1 : 0 < g1.fingerprint.length := List.length_pos.mpr hg1
    have l2 : 0 < g2.fingerprint.length := List.length_pos.mpr hg2
    unfold calculate_similarity
    rw [if_neg (by simp [hg1, hg2]), if_neg (by omega)]
  refine ⟨formula fp1 fp2 h1 h2, ?_, ?_⟩
  · rw [formula fp1 fp1 h1 h1, different_bits_self]
    simp
  · rw [formula fp1 fp2 h1 h2, formula fp2 fp1 h2 h1,
      different_bits_comm fp1.fingerprint fp2.fingerprint, min_comm]

theorem C7_witness :
    calculate_similarity ⟨[3], "", 0⟩ ⟨[3], "", 0⟩ = some 1 ∧
    calculate_similarity ⟨[3], "", 0⟩ ⟨[5], "", 0⟩ = calculate_similarity ⟨[5], "", 0⟩ ⟨[3], "", 0⟩ :=
  ⟨(C7_bit_packed_similarity ⟨[3], "", 0⟩ ⟨[3], "", 0⟩ (by simp) (by simp)).2.1,
   (C7_bit_packed_similarity ⟨[3], "", 0⟩ ⟨[5], "", 0⟩ (by simp) (by simp)).2.2⟩

/-- C2 fails on the code: with both fingerprint arrays empty and both hashes
empty, `calculate_similarity` raises `ZeroDivisionError` (`none`); and with
empty arrays but equal nonempty hashes it returns 1, not 0. -/
theorem C2_counterexample :
    calculate_similarity fpE fpE = none ∧ calculate_similarity fpH fpG = some 1 :=
  ⟨by decide, by decide⟩

/-- C2 amended: for 32-bit array elements the function returns a value in
[0,1] whenever it returns at all; it raises exactly when an array is empty
and both fallback hashes are empty, and an empty array otherwise triggers the
hash fallback (0 for mismatched hash lengths, but possibly nonzero for equal
hash lengths). -/
theorem C2_amended (fp1 fp2 : FPDict)
    (hb1 : ∀ x ∈ fp1.fingerprint, x < 2 ^ 32) (hb2 : ∀ x ∈ fp2.fingerprint, x < 2 ^ 32) :
    (calculate_similarity fp1 fp2 = none ↔
      ((fp1.fingerprint = [] ∨ fp2.fingerprint = []) ∧
        fp1.hash.data = [] ∧ fp2.hash.data = [])) ∧
    (∀ q, calculate_similarity fp1 fp2 = some q → 0 ≤ q ∧ q ≤ 1) ∧
    ((fp1.fingerprint = [] ∨ fp2.fingerprint = []) →
      fp1.hash.data.length ≠ fp2.hash.data.length →
      calculate_similarity fp1 fp2 = some 0) := by
  unfold calculate_similarity
  by_cases hA : fp1.fingerprint = [] ∨ fp2.fingerprint = []
  · rw [if_pos hA]
    by_cases hL : fp1.hash.data.length ≠ fp2.hash.data.length
    · rw [if_pos hL]
      refine ⟨⟨fun h => absurd h (by simp), ?_⟩, ?_, fun _ _ => rfl⟩
      · rintro ⟨-, hd1, hd2⟩
        exact absurd (by rw [hd1, hd2]) hL
      · intro q hq
        cases Option.some.inj hq
        norm_num
    · rw [if_neg hL]
      push_neg at hL
      by_cases h0 : fp1.hash.data.length = 0
      · rw [if_pos h0]
        refine ⟨⟨fun _ => ⟨hA, List.length_eq_zero.mp h0, List.length_eq_zero.mp (by omega)⟩,
          fun _ => rfl⟩, ?_, ?_⟩
        · intro q hq
          exact absurd hq (by simp)
        · intro _ hne
          exact absurd hL hne
      · rw [if_neg h0]
        refine ⟨⟨fun h => absurd h (by simp), ?_⟩, ?_, ?_⟩
        · rintro ⟨-, hd1, -⟩
          rw [hd1] at h0
          exact absurd rfl h0
        · intro q hq
          cases Option.some.inj hq
          have hd := hash_differences_le fp1.hash.data fp2.hash.data
          have hlen : (0 : ℚ) < fp1.hash.data.length := by
            have : 0 < fp1.hash.data.length := Nat.pos_of_ne_zero h0
            exact_mod_cast this
          constructor
          · have hdive : (hash_differences fp1.hash.data fp2.hash.data : ℚ) /
                fp1.hash.data.length ≤ 1 := by
              rw [div_le_one hlen]
              exact_mod_cast hd
            linarith
          · have hnn : (0 : ℚ) ≤ (hash_differences fp1.hash.data fp2.hash.data : ℚ) /
                fp1.hash.data.length :=
              div_nonneg (by positivity) (le_of_lt hlen)
            linarith
        · intro _ hne
          exact absurd hL hne
  · rw [if_neg hA]
    push_neg at hA
    have l1 : 0 < fp1.fingerprint.length := List.length_pos.mpr hA.1
    have l2 : 0 < fp2.fingerprint.length := List.length_pos.mpr hA.2
    rw [if_neg (by omega)]
    refine ⟨⟨fun h => absurd h (by simp), ?_⟩, ?_, ?_⟩
    · rintro ⟨h, -, -⟩
      rcases h with h | h
      · exact absurd h hA.1
      · exact absurd h hA.2
    · intro q hq
      cases Option.some.inj hq
      have hd := different_bits_le fp1.fingerprint fp2.fingerprint hb1 hb2
      have hden : (0 : ℚ) < 32 * (min fp1.fingerprint.length fp2.fingerprint.length : ℚ) := by
        have : 0 < min fp1.fingerprint.length fp2.fingerprint.length := by omega
        have h32 : (0 : ℚ) < 32 := by norm_num
        have : (0 : ℚ) < (min fp1.fingerprint.length fp2.fingerprint.length : ℚ) := by
          exact_mod_cast this
        positivity
      constructor
      · have hdive : (different_bits fp1.fingerprint fp2.fingerprint : ℚ) /
            (32 * (min fp1.fingerprint.length fp2.fingerprint.length : ℚ)) ≤ 1 := by
          rw [div_le_one hden]
          exact_mod_cast hd
        rw [← Nat.cast_min] at hdive
        linarith
      · have hnn : (0 : ℚ) ≤ (different_bits fp1.fingerprint fp2.fingerprint : ℚ) /
            (32 * (min fp1.fingerprint.length fp2.fingerprint.length : ℚ)) :=
          div_nonneg (by positivity) (le_of_lt hden)
        rw [← Nat.cast_min] at hnn
        linarith
    · rintro (h | h) _
      · exact absurd h hA.1
      · exact absurd h hA.2

theorem C2_witness :
    (0 : ℚ) ≤ 15 / 16 ∧ (15 / 16 : ℚ) ≤ 1 :=
  (C2_amended ⟨[3], "", 0⟩ ⟨[5], "", 0⟩ (by decide) (by decide)).2.1 (15 / 16) (by decide)

/-- C4 fails on the code for fewer than 2 matches: a single match is reported
as "partial detection", and no match as "no false positive" — neither branch
classifies the clip as continuous. -/
theorem C4_counterexample :
    spliceAnalysis [(200 : ℚ)] ≠ SpliceVerdict.continuous ∧
    spliceAnalysis [] ≠ SpliceVerdict.continuous ∧
    spliceAnalysis [(200 : ℚ)] = SpliceVerdict.onlyOne :=
  ⟨by decide, by decide, by decide⟩

/-- C4 amended: with at least 2 matches the analysis classifies EDITED
exactly when the maximum consecutive reference-timestamp gap exceeds 300 s
and CONTINUOUS otherwise (`[200, 205, 210]` is CONTINUOUS and
`[200, 800, 1400]` is EDITED); with fewer than 2 matches the code reports
"no false positive" / "partial detection" instead of CONTINUOUS. -/
theorem C4_amended (ts : List ℚ) (h : 2 ≤ ts.length) :
    (spliceAnalysis ts = SpliceVerdict.edited ↔ 300 < max_gap ts) ∧
    (spliceAnalysis ts = SpliceVerdict.continuous ↔ max_gap ts ≤ 300) ∧
    (∀ ts2 : List ℚ, ts2.length < 2 →
      spliceAnalysis ts2 ≠ SpliceVerdict.continuous ∧
      spliceAnalysis ts2 ≠ SpliceVerdict.edited) ∧
    spliceAnalysis [200, 205, 210] = SpliceVerdict.continuous ∧
    spliceAnalysis [200, 800, 1400] = SpliceVerdict.edited := by
  match ts, h with
  | a :: b :: rest, _ =>
    refine ⟨?_, ?_, ?_, by decide, by decide⟩
    · simp only [spliceAnalysis]
      by_cases hg : max_gap (a :: b :: rest) > 300
      · simp [hg]
      · simp [hg]
    · simp only [spliceAnalysis]
      by_cases hg : max_gap (a :: b :: rest) > 300
      · simp only [if_pos hg]
        constructor
        · intro hc
          exact absurd hc (by decide)
        · intro hle
          exact absurd hg (not_lt.mpr hle)
      · simp only [if_neg hg]
        simp [not_lt.mp hg]
    · intro ts2 h2
      match ts2, h2 with
      | [], _ => exact ⟨by decide, by decide⟩
      | [x], _ => exact ⟨by simp [spliceAnalysis], by simp [spliceAnalysis]⟩

theorem C4_witness : spliceAnalysis [200, 800, 1400] = SpliceVerdict.edited :=
  (C4_amended [200, 800, 1400] (by decide)).2.2.2.2

/-- C1 fails on the code: after a run is recorded against a reference, the
code `break`s out of the clip loop, so the scan of that reference stops; the
later disjoint aligned region of `exClipFP` in `exV` (which a fresh scan of
the remaining suffix would report, second conjunct) yields no second run, and
only one match is returned. -/
theorem C1_counterexample :
    find_matches 1 1 [exV] exClipFP = .ok [exM0] ∧
    clipLoop 1 1 exV (exClipFP.drop 1) = .ok (some (exM1, 1)) ∧
    ([exM0] : List Match).length = 1 :=
  ⟨by decide, by decide, rfl⟩

/-- C1 amended: per (clip, reference) pair at most one run is emitted in a
scan - after the first recorded run the search of that reference stops and
the remaining clip suffix is carried to the next reference; in general the
scan reports at most one run per stored video. -/
theorem C1_amended (t : ℚ) (m : Nat) (clip : List FPDict) :
    (∀ v ms, find_matches t m [v] clip = .ok ms → ms.length ≤ 1) ∧
    (∀ videos ms, find_matches t m videos clip = .ok ms → ms.length ≤ videos.length) := by
  constructor
  · intro v ms h
    simpa using find_matches_length t m [v] clip ms h
  · intro videos ms h
    exact find_matches_length t m videos clip ms h

theorem C1_witness : ([exM0] : List Match).length ≤ 1 :=
  (C1_amended 1 1 exClipFP).1 exV [exM0] (by decide)

/-- C9: once a run is recorded against one reference, the clip fingerprint
list is truncated to the suffix after the consumed run before the remaining
references are scanned (first conjunct, the recursion of the video loop);
consequently the matches reported for reference `vB9` differ depending on
whether `vA9` precedes it in the store. -/
theorem C9_truncation :
    (∀ (t : ℚ) (m : Nat) (v : Video) (vs : List Video) (clip : List FPDict)
      (acc : List Match) (mt : Match) (cut : Nat),
      clipLoop t m v clip = .ok (some (mt, cut)) →
      findGo t m (v :: vs) clip acc = findGo t m vs (clip.drop cut) (acc ++ [mt])) ∧
    find_matches 1 1 [vA9, vB9] exClip9 = .ok [mA9, mB9w] ∧
    find_matches 1 1 [vB9] exClip9 = .ok [mB9a] ∧
    mB9w.video_id = "B" ∧ mB9a.video_id = "B" ∧ mB9w ≠ mB9a := by
  refine ⟨?_, by decide, by decide, rfl, rfl, by decide⟩
  intro t m v vs clip acc mt cut h
  simp only [findGo, h]

theorem C9_witness : findGo 1 1 [vA9, vB9] exClip9 [] = findGo 1 1 [vB9] (List.drop 1 exClip9) [mA9] :=
  C9_truncation.1 1 1 vA9 [vB9] exClip9 [] mA9 1 (by decide)

/-- C3: with an empty reference store, the `/verify` endpoint raises the
HTTP 404 "No videos found" error, a condition structurally distinct from the
successful "not_verified" response returned when references exist but none
clears the threshold. -/
theorem C3_no_references (clip : Transcription) (sp : Except String ℚ)
    (videos : List Transcription) :
    verify_clip [] clip sp = .error ApiError.noVideosFound ∧
    (videos ≠ [] → verify_clip videos clip sp ≠ .error ApiError.noVideosFound) ∧
    (∀ ms, search_all_videos TEXT_THRESHOLD clip videos = .ok ms → ms = [] →
      videos ≠ [] →
      verify_clip videos clip sp = .ok ⟨false, "not_verified", [], none, none⟩) := by
  refine ⟨rfl, ?_, ?_⟩
  · intro hv
    unfold verify_clip
    rw [if_neg hv]
    cases hsr : search_all_videos TEXT_THRESHOLD clip videos with
    | error e => simp
    | ok found =>
      cases hh : found.head? with
      | none => simp [hh]
      | some bm =>
        cases sp with
        | ok sim => simp [hh]
        | error e => simp [hh]
  · intro ms hs hnil hv
    subst hnil
    unfold verify_clip
    rw [if_neg hv, hs]
    rfl

theorem C3_witness :
    verify_clip [] exClipNM (.ok 1) = .error ApiError.noVideosFound ∧
    verify_clip [exVideo] exClipNM (.ok 1) = .ok ⟨false, "not_verified", [], none, none⟩ :=
  ⟨(C3_no_references exClipNM (.ok 1) [exVideo]).1,
   (C3_no_references exClipNM (.ok 1) [exVideo]).2.2 [] (by decide) rfl (by simp)⟩

/-- C5: when a content match exists and the speaker-evidence step fails, the
request still succeeds (HTTP 200), the verdict is `content_only`, and the
response carries the explicit "Speaker verification failed" marker. -/
theorem C5_speaker_failure (videos : List Transcription) (clip : Transcription)
    (e : String) (ms : List MatchResult) (hv : videos ≠ [])
    (hs : search_all_videos TEXT_THRESHOLD clip videos = .ok ms) (hne : ms ≠ []) :
    ∃ r, verify_clip videos clip (.error e) = .ok r ∧
      r.verification_type = "content_only" ∧
      r.speaker_verification = some (SpeakerVerification.failed e "Speaker verification failed") ∧
      r.verified = false := by
  obtain ⟨m, tail, rfl⟩ := List.exists_cons_of_ne_nil hne
  refine ⟨⟨false, "content_only", m :: tail, some m,
    some (.failed e "Speaker verification failed")⟩, ?_, rfl, rfl, rfl⟩
  unfold verify_clip
  rw [if_neg hv, hs]
  rfl

theorem C5_witness :
    ∃ r, verify_clip [exVideo] exClip (.error "boom") = .ok r ∧
      r.verification_type = "content_only" := by
  obtain ⟨r, h1, h2, -, -⟩ :=
    C5_speaker_failure [exVideo] exClip "boom" [exMatch] (by simp) (by decide) (by simp)
  exact ⟨r, h1, h2⟩

/-- C8: given references, the verdict is exactly one of `not_verified`
(no match clears the content threshold), `full` (match found and speaker
similarity at or above the speaker threshold) or `content_only` (match found
but speaker similarity below the threshold, or speaker evidence unavailable). -/
theorem C8_verdict_states (videos : List Transcription) (clip : Transcription)
    (sp : Except String ℚ) (ms : List MatchResult) (hv : videos ≠ [])
    (hs : search_all_videos TEXT_THRESHOLD clip videos = .ok ms) :
    ∃ r, verify_clip videos clip sp = .ok r ∧
      (r.verification_type = "full" ∨ r.verification_type = "content_only" ∨
        r.verification_type = "not_verified") ∧
      (r.verification_type = "not_verified" ↔ ms = []) ∧
      (∀ sim, sp = .ok sim → ms ≠ [] →
        ((r.verification_type = "full" ↔ SPEAKER_THRESHOLD ≤ sim) ∧
         (r.verification_type = "content_only" ↔ sim < SPEAKER_THRESHOLD))) := by
  cases ms with
  | nil =>
    refine ⟨⟨false, "not_verified", [], none, none⟩, ?_, Or.inr (Or.inr rfl), by simp, ?_⟩
    · unfold verify_clip
      rw [if_neg hv, hs]
      rfl
    · intro sim _ hne
      exact absurd rfl hne
  | cons m tail =>
    cases sp with
    | ok sim =>
      by_cases hth : SPEAKER_THRESHOLD ≤ sim
      · refine ⟨⟨true, "full", m :: tail, some m,
          some (.ok true sim SPEAKER_THRESHOLD "Same speaker")⟩, ?_, Or.inl rfl, by simp, ?_⟩
        · unfold verify_clip
          rw [if_neg hv, hs]
          simp only [List.head?, verify_speaker, decide_eq_true hth, if_pos hth]
          simp
        · intro sim2 hsim2 _
          cases Except.ok.inj hsim2
          have hne : ("full" : String) ≠ "content_only" := by decide
          exact ⟨⟨fun _ => hth, fun _ => rfl⟩,
            ⟨fun hc => absurd hc hne, fun hlt => absurd hth (not_le.mpr hlt)⟩⟩
      · refine ⟨⟨false, "content_only", m :: tail, some m,
          some (.ok false sim SPEAKER_THRESHOLD "Different speaker - possible deepfake")⟩,
          ?_, Or.inr (Or.inl rfl), by simp, ?_⟩
        · unfold verify_clip
          rw [if_neg hv, hs]
          simp only [List.head?, verify_speaker, decide_eq_false hth, if_neg hth]
          simp
        · intro sim2 hsim2 _
          cases Except.ok.inj hsim2
          have hne : ("content_only" : String) ≠ "full" := by decide
          exact ⟨⟨fun hc => absurd hc hne, fun hle => absurd hle hth⟩,
            ⟨fun _ => not_le.mp hth, fun _ => rfl⟩⟩
    | error e =>
      refine ⟨⟨false, "content_only", m :: tail, some m,
        some (.failed e "Speaker verification failed")⟩, ?_, Or.inr (Or.inl rfl), by simp, ?_⟩
      · unfold verify_clip
        rw [if_neg hv, hs]
        rfl
      · intro sim2 hsim2 _
        exact Except.noConfusion hsim2

theorem C8_witness :
    ∃ r, verify_clip [exVideo] exClip (.ok (9 / 10)) = .ok r ∧
      r.verification_type = "full" := by
  obtain ⟨r, h1, -, -, h4⟩ :=
    C8_verdict_states [exVideo] exClip (.ok (9 / 10)) [exMatch] (by simp) (by decide)
  exact ⟨r, h1, ((h4 (9 / 10) rfl (by simp)).1).mpr (by decide)⟩

/-- C6 fails on the code at a degenerate threshold: at threshold 0 with every
window similarity equal to 0, the `-1` sentinel position is returned as the
match's word offset, although the maximum window similarity (0) is achieved
at offset 0 - the returned offset is not the smallest offset achieving the
maximum. -/
theorem C6_counterexample :
    find_best_match 0 cX vY1 = .ok (some mNeg) ∧
    sims_of cX vY1 = [0] ∧
    mNeg.start_word_index = -1 ∧ mNeg.similarity = 0 :=
  ⟨by decide, by decide, rfl, by decide⟩

/-- C6 amended: for a positive threshold (and nonempty word sequences with
query no longer than reference) the matcher scores every window
`reference[i:i+q]` for `i` in `[0, r-q]`; if the maximum is below the
threshold no match is returned, and any returned match carries the maximum
similarity and the smallest window offset attaining it (strict `>` updates).
Reference words `a b c d e` against query `c d` at threshold 0.8 yield the
match at word offsets 2-3 with similarity 1. -/
theorem C6_amended (t : ℚ) (clip video : Transcription) (h0 : 0 < t)
    (hq : (words_of clip).length ≠ 0) (hr : (words_of video).length ≠ 0)
    (hle : (words_of clip).length ≤ (words_of video).length) :
    (sims_of clip video).length = (words_of video).length - (words_of clip).length + 1 ∧
    ((best_of clip video).1 < t → find_best_match t clip video = .ok none) ∧
    (∀ m, find_best_match t clip video = .ok (some m) →
      t ≤ m.similarity ∧
      m.similarity = (best_of clip video).1 ∧
      (∀ x ∈ sims_of clip video, x ≤ m.similarity) ∧
      (∃ k : Nat, m.start_word_index = (k : Int) ∧
        (sims_of clip video).get? k = some m.similarity ∧
        ∀ j x, j < k → (sims_of clip video).get? j = some x → x < m.similarity)) ∧
    find_best_match (80 / 100) exClip exVideo = .ok (some exMatch) := by
  refine ⟨?_, ?_, ?_, by decide⟩
  · simp [sims_of, window_sims]
  · intro hlt
    exact find_best_match_none_of_lt t clip video hq hr hle hlt
  · intro m hm
    obtain ⟨ht, hsim, hswi, -, -, -, -, -⟩ := find_best_match_some t clip video h0 m hm
    have hpos : 0 < (best_of clip video).1 := lt_of_lt_of_le h0 ht
    obtain ⟨k, hk1, hk2, hk3⟩ := best_of_argmax clip video hpos
    refine ⟨?_, hsim, ?_, k, ?_, ?_, ?_⟩
    · rw [hsim]
      exact ht
    · rw [hsim]
      exact best_of_mem_le clip video
    · rw [hswi, hk1]
    · rw [hsim]
      exact hk2
    · rw [hsim]
      exact hk3

theorem C6_witness : find_best_match (80 / 100) exClip exVideo = .ok (some exMatch) :=
  (C6_amended (80 / 100) exClip exVideo (by decide) (by decide) (by decide) (by decide)).2.2.2

/-- C10 fails on the code in one corner: at threshold 0 with best similarity
0, the `-1` sentinel start index passes the upper-bound-only guard and, with
an empty timestamped word list, the timestamp read raises `IndexError`. -/
theorem C10_counterexample :
    find_best_match 0 cX vY0 = .error "IndexError" ∧
    find_best_match 0 cX vY1 = .ok (some mNeg) ∧ mNeg.start_word_index = -1 :=
  ⟨by decide, by decide, rfl⟩

/-- C10 amended: for a positive threshold the matcher never raises, and every
returned match has in-range nonnegative word indices spanning the clip word
count, with start/end times read from the corresponding word entries. -/
theorem C10_amended (t : ℚ) (clip video : Transcription) (ht : 0 < t) :
    (∀ e, find_best_match t clip video ≠ .error e) ∧
    (∀ m, find_best_match t clip video = .ok (some m) →
      0 ≤ m.start_word_index ∧ m.end_word_index < (video.words.length : Int) ∧
      m.end_word_index = m.start_word_index + m.clip_word_count - 1 ∧
      ∃ ws we, pyGet video.words m.start_word_index = some ws ∧
        pyGet video.words m.end_word_index = some we ∧
        m.start_time = ws.start ∧ m.end_time = we.end_) := by
  constructor
  · exact fun e => find_best_match_no_error t clip video ht e
  · intro m hm
    obtain ⟨-, -, hswi, hewi, hcwc, hs0, hlt, hex⟩ :=
      find_best_match_some t clip video ht m hm
    refine ⟨hs0, hlt, ?_, hex⟩
    rw [hewi, hswi, hcwc]

theorem C10_witness : find_best_match 1 exClip exVideo ≠ .error "IndexError" :=
  (C10_amended 1 exClip exVideo (by decide)).1 "IndexError"
